import Mathlib

/-!
Verification development for a GDB remote-serial-protocol framing library
(packet model `packet.rs`, streaming parser `parser.rs`, session loop `io.rs`).

Bytes are modelled as `Nat` (all byte values on the wire are `< 256`; arithmetic
that wraps in the source uses an explicit `% 256`).  Fallible operations return
`Option`/`Except`.  A Rust panic (an `expect`, an `unreachable!`, or a
`copy_from_slice` length mismatch) is modelled as the result `none` of an
`Option`-valued function: `none` means the source program aborts.
Loops are modelled by structural recursion on a fuel argument that is
initialised (at the public entry points) to a bound larger than the number of
iterations the loop can make, so the fuel-exhaustion branch is unreachable.
-/

namespace GdbSerial

/-- Model of `memchr::memchr2` / `memchr::memchr3` from the `memchr` crate:
the index of the first element of the list satisfying the predicate
(the crate returns the first position of any of the given needle bytes;
callers instantiate `q` with the disjunction of equalities to those bytes). -/
def memchrP (q : Nat → Bool) : List Nat → Option Nat
  | [] => none
  | b :: l => if q b then some 0 else (memchrP q l).map (· + 1)

/-! ## Packet model (`packet.rs`) -/

/-- `enum Kind { Notification, Packet }` -/
inductive Kind
  | Notification  -- introduced by the marker byte 37 (percent)
  | Packet        -- introduced by the marker byte 36 (dollar)
  deriving DecidableEq, Repr

/-- `struct UncheckedPacket { kind, data: Vec<u8>, checksum: [u8; 2] }` -/
structure UncheckedPacket where
  kind : Kind
  data : List Nat
  checksum : Nat × Nat
  deriving DecidableEq, Repr

/-- The error type of `lib.rs` (`Error::NonUtf8` / `Error::NonNumber`);
the `IoError` variant never arises in the pure fragment modelled here.
Payload positions keep the offending bytes / characters like the source does. -/
inductive GdbError
  | NonUtf8 (bytes : List Nat)
  | NonNumber (chars : List Nat)
  deriving DecidableEq, Repr

/-- Value of one ASCII hexadecimal digit, as used by `char::to_digit(16)`
inside `u8::from_str_radix`. -/
def hexDigitVal (c : Nat) : Option Nat :=
  if 48 ≤ c ∧ c ≤ 57 then some (c - 48)
  else if 97 ≤ c ∧ c ≤ 102 then some (c - 97 + 10)
  else if 65 ≤ c ∧ c ≤ 70 then some (c - 65 + 10)
  else none

/-- Digit-accumulation loop of `u8::from_str_radix(s, 16)`: fails on a
non-digit character and on overflow past the `u8` range. -/
def parseHexDigits : List Nat → Nat → Option Nat
  | [], acc => some acc
  | c :: rest, acc =>
    match hexDigitVal c with
    | none => none
    | some d => if acc * 16 + d > 255 then none else parseHexDigits rest (acc * 16 + d)

/-- `u8::from_str_radix(string, 16)` on the characters (unicode scalar values)
of a string: an optional leading plus sign is accepted for an unsigned type,
a minus sign is not; the digit part must be non-empty. -/
def fromStrRadix16 (chars : List Nat) : Option Nat :=
  match chars with
  | [] => none
  | c :: rest =>
    if c = 43 then (if rest = [] then none else parseHexDigits rest 0)
    else parseHexDigits chars 0

/-- Validity of a two-byte sequence as UTF-8 (`std::str::from_utf8` on the
two checksum bytes): either two ASCII bytes, or one two-byte sequence
(lead byte 194..223 followed by continuation byte 128..191). -/
def validUtf8Len2 (a b : Nat) : Prop :=
  (a < 128 ∧ b < 128) ∨ (194 ≤ a ∧ a ≤ 223 ∧ 128 ≤ b ∧ b ≤ 191)

instance (a b : Nat) : Decidable (validUtf8Len2 a b) := by
  unfold validUtf8Len2; infer_instance

/-- The characters of the string formed by a valid two-byte UTF-8 sequence:
two ASCII characters, or the single character decoded from the pair. -/
def utf8CharsLen2 (a b : Nat) : List Nat :=
  if a < 128 then [a, b] else [(a - 192) * 64 + (b - 128)]

/-- `UncheckedPacket::expected_checksum`: UTF-8-decode the two checksum
bytes, then parse the resulting string as a base-16 `u8`. -/
def UncheckedPacket.expected_checksum (p : UncheckedPacket) : Except GdbError Nat :=
  let a := p.checksum.1
  let b := p.checksum.2
  if validUtf8Len2 a b then
    match fromStrRadix16 (utf8CharsLen2 a b) with
    | some v => Except.ok v
    | none => Except.error (GdbError.NonNumber (utf8CharsLen2 a b))
  else Except.error (GdbError.NonUtf8 [a, b])

/-- `UncheckedPacket::actual_checksum`: `u8`-wrapping sum of the data bytes. -/
def UncheckedPacket.actual_checksum (p : UncheckedPacket) : Nat :=
  p.data.foldl (fun hash b => (hash + b) % 256) 0

/-- `struct CheckedPacket { unchecked: UncheckedPacket }` -/
structure CheckedPacket where
  unchecked : UncheckedPacket
  deriving DecidableEq, Repr

/-- `CheckedPacket::assume_checked` -/
def CheckedPacket.assume_checked (u : UncheckedPacket) : CheckedPacket := ⟨u⟩

/-- `CheckedPacket::invalidate_check` -/
def CheckedPacket.invalidate_check (c : CheckedPacket) : UncheckedPacket := c.unchecked

/-- `UncheckedPacket::check`: succeeds iff the parsed expected checksum
equals the computed one (`expected_checksum().ok() == Some(actual_checksum())`). -/
def UncheckedPacket.check (p : UncheckedPacket) : Option CheckedPacket :=
  if p.expected_checksum.toOption = some p.actual_checksum then
    some (CheckedPacket.assume_checked p)
  else none

/-- One uppercase hexadecimal digit character, as produced by the
format specifier in `write!(.., "{:02X}", actual)`. -/
def hexUpperDigit (d : Nat) : Nat := if d < 10 then 48 + d else 55 + d

/-- `CheckedPacket::from_data`: build the packet, compute its checksum and
render it as two uppercase hexadecimal characters. -/
def CheckedPacket.from_data (kind : Kind) (data : List Nat) : CheckedPacket :=
  let packet : UncheckedPacket := { kind := kind, data := data, checksum := (0, 0) }
  let actual := packet.actual_checksum
  CheckedPacket.assume_checked
    { packet with checksum := (hexUpperDigit (actual / 16), hexUpperDigit (actual % 16)) }

/-- `CheckedPacket::empty` -/
def CheckedPacket.empty : CheckedPacket :=
  CheckedPacket.assume_checked { kind := Kind.Packet, data := [], checksum := (48, 48) }

/-- The escaping loop inside `UncheckedPacket::encode`: repeatedly find the
first byte needing an escape (`memchr3(35, 36, 125)` and `memchr(42)`,
taking the smaller position), write the clean prefix verbatim, then write
the lead-in byte 125 followed by the found byte xor 32. -/
def encodePayload (remaining : List Nat) : List Nat :=
  let escape1 := (memchrP (fun b => b == 35 || b == 36 || b == 125) remaining).getD remaining.length
  let escape2 := (memchrP (fun b => b == 42) remaining).getD remaining.length
  let escape := min escape1 escape2
  if hlt : escape < remaining.length then
    remaining.take escape ++
      125 :: ((remaining.getD escape 0) ^^^ 32) :: encodePayload (remaining.drop (escape + 1))
  else
    remaining.take escape
termination_by remaining.length
decreasing_by
  simp only [List.length_drop]
  omega

/-- `UncheckedPacket::encode`, with the writer modelled as the produced byte
list: kind marker, escaped payload, the byte 35 (hash), the two raw
checksum bytes. -/
def UncheckedPacket.encode (p : UncheckedPacket) : List Nat :=
  (match p.kind with
   | Kind.Notification => [37]
   | Kind.Packet => [36])
  ++ encodePayload p.data ++ [35] ++ [p.checksum.1, p.checksum.2]

/-! ## Streaming parser (`parser.rs`) -/

/-- `enum State { Type, Data, Escape, Repeat, Checksum(u8) }`.
`Type` is a reserved word in Lean, so that variant is spelled `Ty`. -/
inductive State
  | Ty
  | Data
  | Escape
  | Repeat
  | Checksum (i : Nat)
  deriving DecidableEq, Repr

/-- `struct Parser { state, kind, data, checksum }` -/
structure Parser where
  state : State
  kind : Kind
  data : List Nat
  checksum : Nat × Nat
  deriving DecidableEq, Repr

/-- `Parser::default()` -/
def Parser.init : Parser :=
  { state := State.Ty, kind := Kind.Notification, data := [], checksum := (0, 0) }

/-- The `State::Type` arm of `Parser::feed_one`: `memchr2` for a marker
byte (37 or 36), record the kind and move to `Data`; without a marker the
whole input is garbage and is consumed in place.  The `some _` arm models
the source's `unreachable!` (a panic). -/
def feedOneTy (p : Parser) (input : List Nat) :
    Option (Nat × Option UncheckedPacket × Parser) :=
  match memchrP (fun x => x == 37 || x == 36) input with
  | some pos =>
    if input.getD pos 0 = 37 then
      some (pos + 1, none, { p with kind := Kind.Notification, state := State.Data })
    else if input.getD pos 0 = 36 then
      some (pos + 1, none, { p with kind := Kind.Packet, state := State.Data })
    else none
  | none => some (input.length, none, p)

/-- The `State::Data` arm of `Parser::feed_one`: `memchr3` for one of the
bytes 35, 125, 42; bytes before it extend the payload verbatim; a found
byte selects the next state.  The `some _` arm models the source's
`unreachable!` (a panic). -/
def feedOneData (p : Parser) (input : List Nat) :
    Option (Nat × Option UncheckedPacket × Parser) :=
  match memchrP (fun x => x == 35 || x == 125 || x == 42) input with
  | some pos =>
    let data1 := p.data ++ input.take pos
    if input.getD pos 0 = 35 then
      some (pos + 1, none, { p with state := State.Checksum 0, data := data1 })
    else if input.getD pos 0 = 125 then
      some (pos + 1, none, { p with state := State.Escape, data := data1 })
    else if input.getD pos 0 = 42 then
      some (pos + 1, none, { p with state := State.Repeat, data := data1 })
    else none
  | none => some (input.length, none, { p with data := p.data ++ input.take input.length })

/-- The `State::Escape` arm of `Parser::feed_one`: one byte, xor 32,
appended to the payload. -/
def feedOneEscape (p : Parser) (first : Nat) :
    Option (Nat × Option UncheckedPacket × Parser) :=
  some (1, none, { p with data := p.data ++ [first ^^^ 32], state := State.Data })

/-- The `State::Repeat` arm of `Parser::feed_one`: the `expect` on
`data.last()` panics (`none`) when the payload is empty; otherwise the
count byte `first` appends `first - 29` (saturating) copies of the last
payload byte. -/
def feedOneRepeat (p : Parser) (first : Nat) :
    Option (Nat × Option UncheckedPacket × Parser) :=
  match p.data.getLast? with
  | none => none
  | some c =>
    some (1, none, { p with data := p.data ++ List.replicate (first - 29) c, state := State.Data })

/-- The `State::Checksum(i)` arm of `Parser::feed_one`:
`read = min(2 - i, input.len())` bytes are copied into `checksum[i..]` by
`copy_from_slice`, which panics (`none`) unless `read` equals the length
`2 - i` of the destination slice; with the buffer full the accumulated
packet is emitted and the parser resets to `Ty`. -/
def feedOneChecksum (p : Parser) (i : Nat) (input : List Nat) :
    Option (Nat × Option UncheckedPacket × Parser) :=
  let read := min (2 - i) input.length
  if read = 2 - i then
    let cs := if i = 0 ∧ read = 2 then (input.getD 0 0, input.getD 1 0)
              else if i = 1 ∧ read = 1 then (p.checksum.1, input.getD 0 0)
              else p.checksum
    if i + read < 2 then
      some (read, none, { p with state := State.Checksum (i + read), checksum := cs })
    else
      some (read, some { kind := p.kind, data := p.data, checksum := cs },
            { p with state := State.Ty, data := [], checksum := cs })
  else none

/-- `Parser::feed_one`.  The result is `none` exactly when the source
panics: the `unreachable!` arms, the `expect` on an empty payload in the
`Repeat` state, and the `copy_from_slice` in the `Checksum` state when the
available bytes cannot fill the rest of the checksum buffer (the
destination slice `checksum[i..]` and the source slice `input[..read]`
then have different lengths, which makes `copy_from_slice` panic). -/
def Parser.feed_one (p : Parser) (input : List Nat) :
    Option (Nat × Option UncheckedPacket × Parser) :=
  match input with
  | [] => some (0, none, p)
  | first :: _ =>
    match p.state with
    | State.Ty => feedOneTy p input
    | State.Data => feedOneData p input
    | State.Escape => feedOneEscape p first
    | State.Repeat => feedOneRepeat p first
    | State.Checksum i => feedOneChecksum p i input

/-- The loop inside `Parser::feed`, with the already-consumed prefix of the
input dropped and the running total threaded through the returned count.
The first two `some`-branches are the loop's exit condition
(`read == input.len() || packet.is_some()`); the `part = 0` branch is
unreachable (`feed_one` consumes at least one byte of a non-empty input
unless it returns a packet). -/
def feedGo : Nat → Parser → List Nat → Option (Nat × Option UncheckedPacket × Parser)
  | 0, p, _ => some (0, none, p)
  | fuel + 1, p, rest =>
    match Parser.feed_one p rest with
    | none => none
    | some (part, pk, p1) =>
      if pk.isSome then some (part, pk, p1)
      else if part = rest.length then some (part, pk, p1)
      else if part = 0 then some (0, none, p1)
      else (feedGo fuel p1 (rest.drop part)).map (fun t => (part + t.1, t.2))

/-- `Parser::feed` (the fuel bound `input.length + 1` dominates the loop's
iteration count, since every iteration that does not return consumes at
least one byte). -/
def Parser.feed (p : Parser) (input : List Nat) :
    Option (Nat × Option UncheckedPacket × Parser) :=
  feedGo (input.length + 1) p input

/-! ## Session loop (`io.rs`) -/

/-- `struct GdbServer { reader, writer, parser }` for the in-memory tester
instantiation: `reader` holds the not-yet-consumed input bytes (`fill_buf`
returns all of them, `consume` drops a prefix), `writer` the bytes written
to the sink so far. -/
structure GdbServer where
  reader : List Nat
  writer : List Nat
  parser : Parser
  deriving DecidableEq, Repr

/-- `GdbServer::new(reader, writer)` with an empty sink. -/
def GdbServer.mk0 (input : List Nat) : GdbServer :=
  { reader := input, writer := [], parser := Parser.init }

/-- The loop of `GdbServer::next_packet`.  Result `none` models a panic
propagated out of `Parser::feed` (fuel exhaustion is unreachable at the
entry point's bound).  On success it returns the final server state and
the optional checked packet. -/
def nextPacketGo : Nat → GdbServer → Option (GdbServer × Option CheckedPacket)
  | 0, _ => none
  | fuel + 1, s =>
    if s.reader = [] then some (s, none)
    else
      match s.parser.feed s.reader with
      | none => none
      | some (read, pkt, parser1) =>
        let s1 : GdbServer := { s with reader := s.reader.drop read, parser := parser1 }
        match pkt with
        | none => nextPacketGo fuel s1
        | some packet =>
          match packet.kind with
          | Kind.Packet =>
            match packet.check with
            | some checked => some ({ s1 with writer := s1.writer ++ [43] }, some checked)
            | none => nextPacketGo fuel { s1 with writer := s1.writer ++ [45] }
          | Kind.Notification => some (s1, packet.check)

/-- `GdbServer::next_packet` (each loop iteration either returns or consumes
input, except possibly one leading iteration from a degenerate parser
state, so `reader.length + 2` bounds the iteration count). -/
def GdbServer.next_packet (s : GdbServer) : Option (GdbServer × Option CheckedPacket) :=
  nextPacketGo (s.reader.length + 2) s

/-! ## Lemmas about the memchr model -/

theorem memchrP_cons {q : Nat → Bool} {b : Nat} {l : List Nat} :
    memchrP q (b :: l) = if q b then some 0 else (memchrP q l).map (· + 1) := rfl

theorem memchrP_lt {q : Nat → Bool} :
    ∀ {l : List Nat} {i : Nat}, memchrP q l = some i → i < l.length := by
  intro l
  induction l with
  | nil => intro i h; simp [memchrP] at h
  | cons b t ih =>
    intro i h
    rw [memchrP_cons] at h
    by_cases hb : q b
    · rw [if_pos hb] at h
      obtain rfl : (0 : Nat) = i := by simpa using h
      simp only [List.length_cons]
      omega
    · rw [if_neg hb] at h
      cases hx : memchrP q t with
      | none => rw [hx] at h; simp at h
      | some j =>
        rw [hx] at h
        simp only [Option.map_some', Option.some.injEq] at h
        have := ih hx
        simp only [List.length_cons]
        omega

theorem memchrP_append_some {q : Nat → Bool} :
    ∀ {xs : List Nat} {i : Nat} (ys : List Nat),
      memchrP q xs = some i → memchrP q (xs ++ ys) = some i := by
  intro xs
  induction xs with
  | nil => intro i ys h; simp [memchrP] at h
  | cons b t ih =>
    intro i ys h
    rw [memchrP_cons] at h
    rw [List.cons_append, memchrP_cons]
    by_cases hb : q b
    · rw [if_pos hb] at h ⊢; exact h
    · rw [if_neg hb] at h ⊢
      cases hx : memchrP q t with
      | none => rw [hx] at h; simp at h
      | some j =>
        rw [hx] at h
        rw [ih ys hx]
        exact h

theorem memchrP_append_none {q : Nat → Bool} :
    ∀ {xs : List Nat} (ys : List Nat),
      memchrP q xs = none →
      memchrP q (xs ++ ys) = (memchrP q ys).map (· + xs.length) := by
  intro xs
  induction xs with
  | nil => intro ys _; simp
  | cons b t ih =>
    intro ys h
    rw [memchrP_cons] at h
    by_cases hb : q b
    · rw [if_pos hb] at h; simp at h
    · rw [if_neg hb] at h
      have ht : memchrP q t = none := by
        cases hx : memchrP q t
        · rfl
        · rw [hx] at h; simp at h
      rw [List.cons_append, memchrP_cons, if_neg hb, ih ys ht]
      cases hy : memchrP q ys
      · simp
      · simp only [Option.map_some', Option.some.injEq, List.length_cons]
        omega

/-! ## Single-step lemmas for the parser -/

theorem feed_one_nil (p : Parser) : p.feed_one [] = some (0, none, p) := rfl

theorem feed_one_cons (p : Parser) (first : Nat) (rest : List Nat) :
    p.feed_one (first :: rest) =
      match p.state with
      | State.Ty => feedOneTy p (first :: rest)
      | State.Data => feedOneData p (first :: rest)
      | State.Escape => feedOneEscape p first
      | State.Repeat => feedOneRepeat p first
      | State.Checksum i => feedOneChecksum p i (first :: rest) := rfl

/-- Every returned consumed count is bounded by the input length. -/
theorem feed_one_le {p : Parser} {input : List Nat} {k : Nat}
    {pk : Option UncheckedPacket} {p1 : Parser}
    (h : p.feed_one input = some (k, pk, p1)) : k ≤ input.length := by
  cases input with
  | nil =>
    rw [feed_one_nil] at h
    injection h with h1
    simp only [Prod.mk.injEq] at h1
    obtain ⟨hk, -, -⟩ := h1
    omega
  | cons first rest =>
    rw [feed_one_cons] at h
    cases hs : p.state with
    | Ty =>
      rw [hs] at h
      simp only [] at h
      rw [feedOneTy] at h
      cases hm : memchrP (fun x => x == 37 || x == 36) (first :: rest) with
      | none =>
        rw [hm] at h
        simp only [] at h
        injection h with h1
        simp only [Prod.mk.injEq] at h1
        obtain ⟨hk, -, -⟩ := h1
        omega
      | some pos =>
        have hpos := memchrP_lt hm
        rw [hm] at h
        simp only [] at h
        by_cases h37 : (first :: rest).getD pos 0 = 37
        · rw [if_pos h37] at h
          injection h with h1
          simp only [Prod.mk.injEq] at h1
          obtain ⟨hk, -, -⟩ := h1
          omega
        · rw [if_neg h37] at h
          by_cases h36 : (first :: rest).getD pos 0 = 36
          · rw [if_pos h36] at h
            injection h with h1
            simp only [Prod.mk.injEq] at h1
            obtain ⟨hk, -, -⟩ := h1
            omega
          · rw [if_neg h36] at h; exact absurd h (by simp)
    | Data =>
      rw [hs] at h
      simp only [] at h
      rw [feedOneData] at h
      cases hm : memchrP (fun x => x == 35 || x == 125 || x == 42) (first :: rest) with
      | none =>
        rw [hm] at h
        simp only [] at h
        injection h with h1
        simp only [Prod.mk.injEq] at h1
        obtain ⟨hk, -, -⟩ := h1
        omega
      | some pos =>
        have hpos := memchrP_lt hm
        rw [hm] at h
        simp only [] at h
        by_cases h35 : (first :: rest).getD pos 0 = 35
        · rw [if_pos h35] at h
          injection h with h1
          simp only [Prod.mk.injEq] at h1
          obtain ⟨hk, -, -⟩ := h1
          omega
        · rw [if_neg h35] at h
          by_cases h125 : (first :: rest).getD pos 0 = 125
          · rw [if_pos h125] at h
            injection h with h1
            simp only [Prod.mk.injEq] at h1
            obtain ⟨hk, -, -⟩ := h1
            omega
          · rw [if_neg h125] at h
            by_cases h42 : (first :: rest).getD pos 0 = 42
            · rw [if_pos h42] at h
              injection h with h1
              simp only [Prod.mk.injEq] at h1
              obtain ⟨hk, -, -⟩ := h1
              omega
            · rw [if_neg h42] at h; exact absurd h (by simp)
    | Escape =>
      rw [hs] at h
      simp only [] at h
      rw [feedOneEscape] at h
      injection h with h1
      simp only [Prod.mk.injEq] at h1
      obtain ⟨hk, -, -⟩ := h1
      simp only [List.length_cons]
      omega
    | Repeat =>
      rw [hs] at h
      simp only [] at h
      rw [feedOneRepeat] at h
      cases hl : p.data.getLast? with
      | none => rw [hl] at h; exact absurd h (by simp)
      | some c =>
        rw [hl] at h
        simp only [] at h
        injection h with h1
        simp only [Prod.mk.injEq] at h1
        obtain ⟨hk, -, -⟩ := h1
        simp only [List.length_cons]
        omega
    | Checksum i =>
      rw [hs] at h
      simp only [] at h
      rw [feedOneChecksum] at h
      have hmin : min (2 - i) (first :: rest).length ≤ (first :: rest).length :=
        Nat.min_le_right _ _
      by_cases hr : min (2 - i) (first :: rest).length = 2 - i
      · rw [if_pos hr] at h
        by_cases hlt : i + min (2 - i) (first :: rest).length < 2
        · rw [if_pos hlt] at h
          injection h with h1
          simp only [Prod.mk.injEq] at h1
          obtain ⟨hk, -, -⟩ := h1
          omega
        · rw [if_neg hlt] at h
          injection h with h1
          simp only [Prod.mk.injEq] at h1
          obtain ⟨hk, -, -⟩ := h1
          omega
      · rw [if_neg hr] at h; exact absurd h (by simp)

/-- On a non-empty input, `feed_one` either consumes at least one byte or
returns a packet (so the `feed` loop always makes progress). -/
theorem feed_one_progress {p : Parser} {input : List Nat} {k : Nat}
    {pk : Option UncheckedPacket} {p1 : Parser}
    (hne : input ≠ []) (h : p.feed_one input = some (k, pk, p1)) :
    1 ≤ k ∨ pk.isSome := by
  cases input with
  | nil => exact absurd rfl hne
  | cons first rest =>
    rw [feed_one_cons] at h
    cases hs : p.state with
    | Ty =>
      rw [hs] at h
      simp only [] at h
      rw [feedOneTy] at h
      cases hm : memchrP (fun x => x == 37 || x == 36) (first :: rest) with
      | none =>
        rw [hm] at h
        simp only [] at h
        injection h with h1
        simp only [Prod.mk.injEq] at h1
        obtain ⟨hk, -, -⟩ := h1
        left
        simp only [List.length_cons] at hk
        omega
      | some pos =>
        rw [hm] at h
        simp only [] at h
        by_cases h37 : (first :: rest).getD pos 0 = 37
        · rw [if_pos h37] at h
          injection h with h1
          simp only [Prod.mk.injEq] at h1
          obtain ⟨hk, -, -⟩ := h1
          left; omega
        · rw [if_neg h37] at h
          by_cases h36 : (first :: rest).getD pos 0 = 36
          · rw [if_pos h36] at h
            injection h with h1
            simp only [Prod.mk.injEq] at h1
            obtain ⟨hk, -, -⟩ := h1
            left; omega
          · rw [if_neg h36] at h; exact absurd h (by simp)
    | Data =>
      rw [hs] at h
      simp only [] at h
      rw [feedOneData] at h
      cases hm : memchrP (fun x => x == 35 || x == 125 || x == 42) (first :: rest) with
      | none =>
        rw [hm] at h
        simp only [] at h
        injection h with h1
        simp only [Prod.mk.injEq] at h1
        obtain ⟨hk, -, -⟩ := h1
        left
        simp only [List.length_cons] at hk
        omega
      | some pos =>
        rw [hm] at h
        simp only [] at h
        by_cases h35 : (first :: rest).getD pos 0 = 35
        · rw [if_pos h35] at h
          injection h with h1
          simp only [Prod.mk.injEq] at h1
          obtain ⟨hk, -, -⟩ := h1
          left; omega
        · rw [if_neg h35] at h
          by_cases h125 : (first :: rest).getD pos 0 = 125
          · rw [if_pos h125] at h
            injection h with h1
            simp only [Prod.mk.injEq] at h1
            obtain ⟨hk, -, -⟩ := h1
            left; omega
          · rw [if_neg h125] at h
            by_cases h42 : (first :: rest).getD pos 0 = 42
            · rw [if_pos h42] at h
              injection h with h1
              simp only [Prod.mk.injEq] at h1
              obtain ⟨hk, -, -⟩ := h1
              left; omega
            · rw [if_neg h42] at h; exact absurd h (by simp)
    | Escape =>
      rw [hs] at h
      simp only [] at h
      rw [feedOneEscape] at h
      injection h with h1
      simp only [Prod.mk.injEq] at h1
      obtain ⟨hk, -, -⟩ := h1
      left; omega
    | Repeat =>
      rw [hs] at h
      simp only [] at h
      rw [feedOneRepeat] at h
      cases hl : p.data.getLast? with
      | none => rw [hl] at h; exact absurd h (by simp)
      | some c =>
        rw [hl] at h
        simp only [] at h
        injection h with h1
        simp only [Prod.mk.injEq] at h1
        obtain ⟨hk, -, -⟩ := h1
        left; omega
    | Checksum i =>
      rw [hs] at h
      simp only [] at h
      rw [feedOneChecksum] at h
      by_cases hr : min (2 - i) (first :: rest).length = 2 - i
      · rw [if_pos hr] at h
        by_cases hlt : i + min (2 - i) (first :: rest).length < 2
        · rw [if_pos hlt] at h
          injection h with h1
          simp only [Prod.mk.injEq] at h1
          obtain ⟨hk, -, -⟩ := h1
          left
          simp only [List.length_cons] at hr hlt hk
          omega
        · rw [if_neg hlt] at h
          injection h with h1
          simp only [Prod.mk.injEq] at h1
          obtain ⟨-, hpk, -⟩ := h1
          right
          rw [← hpk]
          rfl
      · rw [if_neg hr] at h; exact absurd h (by simp)

/-! ## Lemmas about the feed loop -/

/-- Unfolding equations of `feedGo` (one loop iteration). -/
theorem feedGo_succ (fuel : Nat) (p : Parser) (rest : List Nat) :
    feedGo (fuel + 1) p rest =
      match p.feed_one rest with
      | none => none
      | some (part, pk, p1) =>
        if pk.isSome then some (part, pk, p1)
        else if part = rest.length then some (part, pk, p1)
        else if part = 0 then some (0, none, p1)
        else (feedGo fuel p1 (rest.drop part)).map (fun t => (part + t.1, t.2)) := rfl

/-- The loop returns a count bounded by the input length, and equal to it
when no packet is produced. -/
theorem feedGo_spec :
    ∀ (fuel : Nat) (p : Parser) (rest : List Nat) {n : Nat}
      {pk : Option UncheckedPacket} {p1 : Parser},
      rest.length < fuel →
      feedGo fuel p rest = some (n, pk, p1) →
      n ≤ rest.length ∧ (pk = none → n = rest.length) := by
  intro fuel
  induction fuel with
  | zero => intro p rest n pk p1 hf; exact absurd hf (Nat.not_lt_zero _)
  | succ f ih =>
    intro p rest n pk p1 hf h
    rw [feedGo_succ] at h
    cases ho : p.feed_one rest with
    | none => rw [ho] at h; exact absurd h (by simp)
    | some t =>
      obtain ⟨part, pk1, pmid⟩ := t
      rw [ho] at h
      simp only [] at h
      by_cases hsome : pk1.isSome
      · rw [if_pos hsome] at h
        injection h with h1
        simp only [Prod.mk.injEq] at h1
        obtain ⟨hn, hpk, -⟩ := h1
        have hle := feed_one_le ho
        constructor
        · omega
        · intro hnone
          rw [hnone] at hpk
          rw [hpk] at hsome
          simp at hsome
      · rw [if_neg hsome] at h
        by_cases heq : part = rest.length
        · rw [if_pos heq] at h
          injection h with h1
          simp only [Prod.mk.injEq] at h1
          obtain ⟨hn, -, -⟩ := h1
          omega
        · rw [if_neg heq] at h
          by_cases h0 : part = 0
          · exfalso
            have hne : rest ≠ [] := by
              intro hnil
              rw [hnil] at heq
              simp at heq
              omega
            rcases feed_one_progress hne ho with h1 | h1
            · omega
            · exact hsome h1
          · rw [if_neg h0] at h
            cases hrec : feedGo f pmid (rest.drop part) with
            | none => rw [hrec] at h; exact absurd h (by simp)
            | some t2 =>
              obtain ⟨m, pk2, p2⟩ := t2
              rw [hrec] at h
              simp only [Option.map_some'] at h
              injection h with h1
              simp only [Prod.mk.injEq] at h1
              obtain ⟨hn, hpk, -⟩ := h1
              have hle := feed_one_le ho
              have hdl : (rest.drop part).length = rest.length - part := List.length_drop _ _
              have hih := ih pmid (rest.drop part) (by omega) hrec
              rw [hdl] at hih
              obtain ⟨hm1, hm2⟩ := hih
              constructor
              · omega
              · intro hnone
                rw [hnone] at hpk
                have := hm2 hpk
                omega

/-- The loop's result does not depend on the fuel, once the fuel majorises
the input length. -/
theorem feedGo_mono :
    ∀ (f g : Nat) (p : Parser) (rest : List Nat),
      rest.length < f → rest.length < g →
      feedGo f p rest = feedGo g p rest := by
  intro f
  induction f with
  | zero => intro g p rest hf; exact absurd hf (Nat.not_lt_zero _)
  | succ f ih =>
    intro g p rest hf hg
    cases g with
    | zero => exact absurd hg (Nat.not_lt_zero _)
    | succ g =>
      rw [feedGo_succ, feedGo_succ]
      cases ho : p.feed_one rest with
      | none => rfl
      | some t =>
        obtain ⟨part, pk1, pmid⟩ := t
        simp only []
        by_cases hsome : pk1.isSome
        · rw [if_pos hsome, if_pos hsome]
        · rw [if_neg hsome, if_neg hsome]
          by_cases heq : part = rest.length
          · rw [if_pos heq, if_pos heq]
          · rw [if_neg heq, if_neg heq]
            by_cases h0 : part = 0
            · rw [if_pos h0, if_pos h0]
            · rw [if_neg h0, if_neg h0]
              have hle := feed_one_le ho
              have hdl : (rest.drop part).length = rest.length - part := List.length_drop _ _
              rw [ih g pmid (rest.drop part) (by omega) (by omega)]

/-- `Checksum 0` with at least two bytes available: both checksum bytes are
taken and the packet is emitted. -/
theorem feedOneChecksum_zero (p : Parser) (a b : Nat) (l : List Nat) :
    feedOneChecksum p 0 (a :: b :: l) =
      some (2, some { kind := p.kind, data := p.data, checksum := (a, b) },
            { p with state := State.Ty, data := [], checksum := (a, b) }) := by
  rw [feedOneChecksum]
  have hr : min (2 - 0) (a :: b :: l).length = 2 - 0 := by
    simp only [List.length_cons]
    omega
  rw [if_pos hr, hr]
  norm_num

/-- `Checksum 1` with at least one byte available: the second checksum byte
is taken and the packet is emitted. -/
theorem feedOneChecksum_one (p : Parser) (a : Nat) (l : List Nat) :
    feedOneChecksum p 1 (a :: l) =
      some (1, some { kind := p.kind, data := p.data, checksum := (p.checksum.1, a) },
            { p with state := State.Ty, data := [], checksum := (p.checksum.1, a) }) := by
  rw [feedOneChecksum]
  have hr : min (2 - 1) (a :: l).length = 2 - 1 := by
    simp only [List.length_cons]
    omega
  rw [if_pos hr, hr]
  norm_num

/-- A degenerate `Checksum i` with `i ≥ 2` consumes nothing and emits the
packet with the stored checksum. -/
theorem feedOneChecksum_big (p : Parser) (i : Nat) (hi : 2 ≤ i) (input : List Nat) :
    feedOneChecksum p i input =
      some (0, some { kind := p.kind, data := p.data, checksum := p.checksum },
            { p with state := State.Ty, data := [], checksum := p.checksum }) := by
  rw [feedOneChecksum]
  have h2i : 2 - i = 0 := by omega
  rw [h2i]
  have hr : min 0 input.length = 0 := by omega
  rw [if_pos (by omega : min 0 input.length = 0), hr]
  have hc1 : ¬(i = 0 ∧ (0 : Nat) = 2) := by omega
  have hc2 : ¬(i = 1 ∧ (0 : Nat) = 1) := by omega
  rw [if_neg hc1, if_neg hc2, if_neg (by omega : ¬i + 0 < 2)]

/-- `Checksum 0` with exactly one byte available: the `copy_from_slice`
length mismatch panics. -/
theorem feedOneChecksum_zero_one (p : Parser) (a : Nat) :
    feedOneChecksum p 0 [a] = none := by
  rw [feedOneChecksum]
  have hr : min (2 - 0) ([a] : List Nat).length = 1 := by simp
  rw [if_neg (by omega : ¬min (2 - 0) ([a] : List Nat).length = 2 - 0)]

/-- Appending further input does not change a step that stopped strictly
inside the original input. -/
theorem feed_one_frame {p : Parser} {xs : List Nat} {k : Nat}
    {pk : Option UncheckedPacket} {p1 : Parser} (ys : List Nat)
    (h : p.feed_one xs = some (k, pk, p1)) (hk : k < xs.length) :
    p.feed_one (xs ++ ys) = some (k, pk, p1) := by
  cases xs with
  | nil => simp at hk
  | cons first rest =>
    rw [feed_one_cons] at h
    rw [List.cons_append, feed_one_cons]
    cases hs : p.state with
    | Ty =>
      rw [hs] at h
      simp only [] at h ⊢
      rw [feedOneTy] at h ⊢
      rw [← List.cons_append]
      cases hm : memchrP (fun x => x == 37 || x == 36) (first :: rest) with
      | none =>
        rw [hm] at h
        simp only [] at h
        injection h with h1
        simp only [Prod.mk.injEq] at h1
        obtain ⟨hn, -, -⟩ := h1
        omega
      | some pos =>
        have hpos := memchrP_lt hm
        rw [memchrP_append_some ys hm]
        simp only []
        rw [List.getD_append _ _ _ _ hpos]
        rw [hm] at h
        simp only [] at h
        exact h
    | Data =>
      rw [hs] at h
      simp only [] at h ⊢
      rw [feedOneData] at h ⊢
      rw [← List.cons_append]
      cases hm : memchrP (fun x => x == 35 || x == 125 || x == 42) (first :: rest) with
      | none =>
        rw [hm] at h
        simp only [] at h
        injection h with h1
        simp only [Prod.mk.injEq] at h1
        obtain ⟨hn, -, -⟩ := h1
        omega
      | some pos =>
        have hpos := memchrP_lt hm
        rw [memchrP_append_some ys hm]
        simp only []
        rw [List.getD_append _ _ _ _ hpos]
        rw [List.take_append_of_le_length (by omega : pos ≤ (first :: rest).length)]
        rw [hm] at h
        simp only [] at h
        exact h
    | Escape =>
      rw [hs] at h
      simp only [] at h ⊢
      exact h
    | Repeat =>
      rw [hs] at h
      simp only [] at h ⊢
      exact h
    | Checksum i =>
      rw [hs] at h
      simp only [] at h ⊢
      rcases i with - | - | i
      · cases rest with
        | nil =>
          rw [feedOneChecksum_zero_one] at h
          exact absurd h (by simp)
        | cons b l =>
          rw [feedOneChecksum_zero] at h
          rw [List.cons_append, feedOneChecksum_zero]
          exact h
      · rw [feedOneChecksum_one] at h
        rw [feedOneChecksum_one]
        exact h
      · rw [feedOneChecksum_big p (i + 2) (by omega)] at h
        rw [feedOneChecksum_big p (i + 2) (by omega)]
        exact h

/-- In the `Ty` state the step function is `feedOneTy` on every input
(including the empty one). -/
theorem feed_one_eq_ty {p : Parser} (hs : p.state = State.Ty) (ys : List Nat) :
    p.feed_one ys = feedOneTy p ys := by
  cases ys with
  | nil =>
    rw [feed_one_nil, feedOneTy]
    simp [memchrP]
  | cons y t => rw [feed_one_cons, hs]

/-- In the `Data` state the step function is `feedOneData` on every input
(including the empty one). -/
theorem feed_one_eq_data {p : Parser} (hs : p.state = State.Data) (ys : List Nat) :
    p.feed_one ys = feedOneData p ys := by
  cases ys with
  | nil =>
    rw [feed_one_nil, feedOneData]
    simp [memchrP]
  | cons y t => rw [feed_one_cons, hs]

/-- A marker scan that ran off the end of `xs` continues through `ys`:
the `Ty` step on `xs ++ ys` is the `Ty` step on `ys` with the consumed
count shifted by `xs.length`. -/
theorem feedOneTy_shift (p : Parser) (xs ys : List Nat)
    (hm : memchrP (fun x => x == 37 || x == 36) xs = none) :
    feedOneTy p (xs ++ ys) = (feedOneTy p ys).map (fun t => (xs.length + t.1, t.2)) := by
  rw [feedOneTy, feedOneTy, memchrP_append_none ys hm]
  cases hmy : memchrP (fun x => x == 37 || x == 36) ys with
  | none =>
    simp [List.length_append]
  | some j =>
    have hj := memchrP_lt hmy
    simp only [Option.map_some']
    have hgd := List.getD_append_right xs ys 0 (j + xs.length)
      (by omega : xs.length ≤ j + xs.length)
    rw [Nat.add_sub_cancel] at hgd
    rw [hgd]
    by_cases h37 : ys.getD j 0 = 37
    · rw [if_pos h37, if_pos h37]
      simp only [Option.map_some', Option.some.injEq, Prod.mk.injEq]
      exact ⟨by omega, trivial⟩
    · rw [if_neg h37, if_neg h37]
      by_cases h36 : ys.getD j 0 = 36
      · rw [if_pos h36, if_pos h36]
        simp only [Option.map_some', Option.some.injEq, Prod.mk.injEq]
        exact ⟨by omega, trivial⟩
      · rw [if_neg h36, if_neg h36]
        simp

/-- A payload scan that ran off the end of `xs` continues through `ys`,
with the payload accumulated so far extended by all of `xs`. -/
theorem feedOneData_shift (p : Parser) (xs ys : List Nat)
    (hm : memchrP (fun x => x == 35 || x == 125 || x == 42) xs = none) :
    feedOneData p (xs ++ ys) =
      (feedOneData { p with data := p.data ++ xs } ys).map
        (fun t => (xs.length + t.1, t.2)) := by
  rw [feedOneData, feedOneData, memchrP_append_none ys hm]
  cases hmy : memchrP (fun x => x == 35 || x == 125 || x == 42) ys with
  | none =>
    simp only [Option.map_none']
    rw [List.take_length, List.take_length]
    simp [List.length_append, List.append_assoc]
  | some j =>
    have hj := memchrP_lt hmy
    simp only [Option.map_some']
    have hgd := List.getD_append_right xs ys 0 (j + xs.length)
      (by omega : xs.length ≤ j + xs.length)
    rw [Nat.add_sub_cancel] at hgd
    rw [hgd]
    have htake : (xs ++ ys).take (j + xs.length) = xs ++ ys.take j := by
      rw [List.take_append_eq_append_take]
      rw [List.take_of_length_le (by omega : xs.length ≤ j + xs.length)]
      rw [Nat.add_sub_cancel]
    rw [htake, ← List.append_assoc]
    by_cases h35 : ys.getD j 0 = 35
    · rw [if_pos h35, if_pos h35]
      simp only [Option.map_some', Option.some.injEq, Prod.mk.injEq]
      exact ⟨by omega, trivial⟩
    · rw [if_neg h35, if_neg h35]
      by_cases h125 : ys.getD j 0 = 125
      · rw [if_pos h125, if_pos h125]
        simp only [Option.map_some', Option.some.injEq, Prod.mk.injEq]
        exact ⟨by omega, trivial⟩
      · rw [if_neg h125, if_neg h125]
        by_cases h42 : ys.getD j 0 = 42
        · rw [if_pos h42, if_pos h42]
          simp only [Option.map_some', Option.some.injEq, Prod.mk.injEq]
          exact ⟨by omega, trivial⟩
        · rw [if_neg h42, if_neg h42]
          simp

/-- Dichotomy at a chunk boundary: a step that consumed all of `xs`
without a packet either behaves identically on `xs ++ ys` (it completed a
unit exactly at the last byte of `xs`), or continues as the returned
parser's step on `ys`, shifted by `xs.length` (a scan ran off the end). -/
theorem feed_one_boundary {p : Parser} {xs : List Nat} {p1 : Parser} (ys : List Nat)
    (hne : xs ≠ []) (h : p.feed_one xs = some (xs.length, none, p1)) :
    p.feed_one (xs ++ ys) = some (xs.length, none, p1) ∨
    p.feed_one (xs ++ ys) = (p1.feed_one ys).map (fun t => (xs.length + t.1, t.2)) := by
  cases xs with
  | nil => exact absurd rfl hne
  | cons first rest =>
    rw [feed_one_cons] at h
    rw [List.cons_append, feed_one_cons]
    cases hs : p.state with
    | Ty =>
      rw [hs] at h
      simp only [] at h ⊢
      cases hm : memchrP (fun x => x == 37 || x == 36) (first :: rest) with
      | some pos =>
        left
        have hpos := memchrP_lt hm
        rw [feedOneTy] at h ⊢
        rw [← List.cons_append, memchrP_append_some ys hm]
        simp only []
        rw [List.getD_append _ _ _ _ hpos]
        rw [hm] at h
        simp only [] at h
        exact h
      | none =>
        right
        rw [feedOneTy, hm] at h
        simp only [] at h
        injection h with h1
        simp only [Prod.mk.injEq] at h1
        obtain ⟨-, -, hp1⟩ := h1
        subst hp1
        rw [feed_one_eq_ty hs ys, ← List.cons_append]
        exact feedOneTy_shift p (first :: rest) ys hm
    | Data =>
      rw [hs] at h
      simp only [] at h ⊢
      cases hm : memchrP (fun x => x == 35 || x == 125 || x == 42) (first :: rest) with
      | some pos =>
        left
        have hpos := memchrP_lt hm
        rw [feedOneData] at h ⊢
        rw [← List.cons_append, memchrP_append_some ys hm]
        simp only []
        rw [List.getD_append _ _ _ _ hpos]
        rw [List.take_append_of_le_length (by omega : pos ≤ (first :: rest).length)]
        rw [hm] at h
        simp only [] at h
        exact h
      | none =>
        right
        rw [feedOneData, hm] at h
        simp only [] at h
        injection h with h1
        simp only [Prod.mk.injEq] at h1
        obtain ⟨-, -, hp1⟩ := h1
        rw [List.take_length] at hp1
        have hs1 : p1.state = State.Data := by rw [← hp1]; exact hs
        rw [feed_one_eq_data hs1 ys, ← List.cons_append]
        rw [← hp1]
        exact feedOneData_shift p (first :: rest) ys hm
    | Escape =>
      rw [hs] at h
      simp only [] at h ⊢
      rw [feedOneEscape] at h
      have hcopy := h
      injection hcopy with h1
      simp only [Prod.mk.injEq] at h1
      obtain ⟨hlen, -, -⟩ := h1
      cases rest with
      | nil =>
        left
        exact h
      | cons r rs =>
        exfalso
        simp only [List.length_cons] at hlen
        omega
    | Repeat =>
      rw [hs] at h
      simp only [] at h ⊢
      rw [feedOneRepeat] at h
      cases hl : p.data.getLast? with
      | none => rw [hl] at h; exact absurd h (by simp)
      | some c =>
        rw [hl] at h
        simp only [] at h
        have hcopy := h
        injection hcopy with h1
        simp only [Prod.mk.injEq] at h1
        obtain ⟨hlen, -, -⟩ := h1
        cases rest with
        | nil =>
          left
          rw [feedOneRepeat, hl]
          simp only [] at h ⊢
          exact h
        | cons r rs =>
          exfalso
          simp only [List.length_cons] at hlen
          omega
    | Checksum i =>
      exfalso
      rw [hs] at h
      simp only [] at h
      rcases i with - | - | i
      · cases rest with
        | nil =>
          rw [feedOneChecksum_zero_one] at h
          exact absurd h (by simp)
        | cons b l =>
          rw [feedOneChecksum_zero] at h
          injection h with h1
          simp only [Prod.mk.injEq] at h1
          obtain ⟨-, hpk, -⟩ := h1
          exact absurd hpk (by simp)
      · rw [feedOneChecksum_one] at h
        injection h with h1
        simp only [Prod.mk.injEq] at h1
        obtain ⟨-, hpk, -⟩ := h1
        exact absurd hpk (by simp)
      · rw [feedOneChecksum_big p (i + 2) (by omega)] at h
        injection h with h1
        simp only [Prod.mk.injEq] at h1
        obtain ⟨-, hpk, -⟩ := h1
        exact absurd hpk (by simp)

theorem feedGo_nil (fuel : Nat) (p : Parser) :
    feedGo (fuel + 1) p [] = some (0, none, p) := by
  rw [feedGo_succ, feed_one_nil]
  simp

/-- Chunk composition for the feed loop: if the loop consumed all of `xs`
without producing a packet, then on `xs ++ ys` it continues through `ys`
from the state it reached, with the consumed counts adding up. -/
theorem feedGo_append :
    ∀ (f : Nat) (p : Parser) (xs ys : List Nat) (p1 : Parser),
      (xs ++ ys).length < f →
      feedGo f p xs = some (xs.length, none, p1) →
      feedGo f p (xs ++ ys) = (feedGo f p1 ys).map (fun t => (xs.length + t.1, t.2)) := by
  intro f
  induction f with
  | zero => intro p xs ys p1 hf; exact absurd hf (Nat.not_lt_zero _)
  | succ f ih =>
    intro p xs ys p1 hf h
    cases xs with
    | nil =>
      rw [feedGo_nil] at h
      injection h with h1
      simp only [Prod.mk.injEq] at h1
      obtain ⟨-, -, hp⟩ := h1
      subst hp
      simp only [List.nil_append, List.length_nil]
      cases ho : feedGo (f + 1) p ys with
      | none => simp
      | some t => simp
    | cons first rest =>
      rw [feedGo_succ] at h
      cases ho : Parser.feed_one p (first :: rest) with
      | none => rw [ho] at h; exact absurd h (by simp)
      | some t =>
        obtain ⟨part, pk1, pmid⟩ := t
        rw [ho] at h
        simp only [] at h
        by_cases hsome : pk1.isSome
        · rw [if_pos hsome] at h
          injection h with h1
          simp only [Prod.mk.injEq] at h1
          obtain ⟨-, hpk, -⟩ := h1
          rw [hpk] at hsome
          simp at hsome
        · rw [if_neg hsome] at h
          by_cases heq : part = (first :: rest).length
          · rw [if_pos heq] at h
            injection h with h1
            simp only [Prod.mk.injEq] at h1
            obtain ⟨-, hpk, hpm⟩ := h1
            subst hpm
            subst heq
            have hpk1 : pk1 = none := by
              cases pk1
              · rfl
              · simp at hsome
            subst hpk1
            rcases feed_one_boundary ys (by simp) ho with hb | hb
            · rw [feedGo_succ, hb]
              simp only []
              rw [if_neg (by simp : ¬((none : Option UncheckedPacket).isSome = true))]
              by_cases hys : ys = []
              · subst hys
                rw [if_pos (by simp), feedGo_nil]
                simp
              · have hyl : 0 < ys.length := List.length_pos.mpr hys
                rw [if_neg (by
                  simp only [List.length_cons, List.length_append]
                  omega)]
                rw [if_neg (by simp : ¬((first :: rest).length = 0))]
                rw [List.drop_left]
                rw [feedGo_mono f (f + 1) pmid ys
                  (by simp only [List.length_cons, List.length_append] at hf; omega)
                  (by simp only [List.length_cons, List.length_append] at hf; omega)]
            · rw [feedGo_succ, hb]
              cases hy : Parser.feed_one pmid ys with
              | none =>
                simp only [Option.map_none']
                rw [feedGo_succ, hy]
                simp
              | some t2 =>
                obtain ⟨k2, pk2, q⟩ := t2
                rw [feedGo_succ, hy]
                simp only [Option.map_some']
                have hk2le := feed_one_le hy
                by_cases hsome2 : pk2.isSome
                · rw [if_pos hsome2, if_pos hsome2]
                  simp
                · rw [if_neg hsome2, if_neg hsome2]
                  by_cases hk2 : k2 = ys.length
                  · rw [if_pos hk2, if_pos (by
                      subst hk2
                      simp only [List.length_cons, List.length_append]
                      try omega)]
                    simp
                  · rw [if_neg hk2]
                    rw [if_neg (by
                      simp only [List.length_cons, List.length_append]
                      omega : ¬((first :: rest).length + k2 = ((first :: rest) ++ ys).length))]
                    by_cases hk0 : k2 = 0
                    · exfalso
                      have hysne : ys ≠ [] := by
                        intro he
                        subst he
                        simp at hk2 hk0
                        exact hk2 hk0
                      rcases feed_one_progress hysne hy with hpr | hpr
                      · omega
                      · exact hsome2 hpr
                    · rw [if_neg hk0]
                      rw [if_neg (by simp : ¬((first :: rest).length + k2 = 0))]
                      rw [List.drop_append k2]
                      cases hr2 : feedGo f q (ys.drop k2) with
                      | none => simp
                      | some t3 =>
                        simp only [Option.map_some', Option.some.injEq, Prod.mk.injEq]
                        exact ⟨by omega, trivial⟩
          · rw [if_neg heq] at h
            by_cases h0 : part = 0
            · rw [if_pos h0] at h
              injection h with h1
              simp only [Prod.mk.injEq] at h1
              obtain ⟨hlen0, -, -⟩ := h1
              simp at hlen0
            · rw [if_neg h0] at h
              cases hrec : feedGo f pmid ((first :: rest).drop part) with
              | none => rw [hrec] at h; exact absurd h (by simp)
              | some t2 =>
                obtain ⟨m, pk2, p2⟩ := t2
                rw [hrec] at h
                simp only [Option.map_some'] at h
                injection h with h1
                simp only [Prod.mk.injEq] at h1
                obtain ⟨hsum, hpk2, hp2⟩ := h1
                subst hp2
                have hpk1 : pk1 = none := by
                  cases pk1
                  · rfl
                  · simp at hsome
                subst hpk1
                have hpk2n : pk2 = none := by
                  cases pk2
                  · rfl
                  · simp at hpk2
                subst hpk2n
                have hle := feed_one_le ho
                have hplt : part < (first :: rest).length := by omega
                have hfr := feed_one_frame ys ho hplt
                rw [feedGo_succ, hfr]
                simp only []
                rw [if_neg (by simp : ¬((none : Option UncheckedPacket).isSome = true))]
                rw [if_neg (by
                  simp only [List.length_append]
                  omega : ¬(part = ((first :: rest) ++ ys).length))]
                rw [if_neg h0]
                rw [List.drop_append_of_le_length (by omega : part ≤ (first :: rest).length)]
                have hm : ((first :: rest).drop part).length = m := by
                  rw [List.length_drop]
                  omega
                have hrec2 : feedGo f pmid ((first :: rest).drop part) =
                    some (((first :: rest).drop part).length, none, p2) := by
                  rw [hm]
                  exact hrec
                have hih := ih pmid ((first :: rest).drop part) ys p2
                  (by
                    rw [List.length_append, List.length_drop]
                    rw [List.length_append] at hf
                    omega)
                  hrec2
                rw [hih]
                rw [feedGo_mono f (f + 1) p2 ys
                  (by simp only [List.length_cons, List.length_append] at hf; omega)
                  (by simp only [List.length_cons, List.length_append] at hf; omega)]
                cases hfin : feedGo (f + 1) p2 ys with
                | none => simp
                | some t4 =>
                  simp only [Option.map_some', Option.some.injEq, Prod.mk.injEq]
                  refine ⟨?_, trivial⟩
                  rw [List.length_drop]
                  omega

/-- `Parser::feed` composes across a chunk boundary: a call that consumed
all of `xs` without a packet is continued by the appended bytes exactly as
a separate call on them. -/
theorem feed_append {p : Parser} {xs : List Nat} {p1 : Parser} (ys : List Nat)
    (h : p.feed xs = some (xs.length, none, p1)) :
    p.feed (xs ++ ys) = (p1.feed ys).map (fun t => (xs.length + t.1, t.2)) := by
  rw [Parser.feed] at h ⊢
  rw [Parser.feed]
  have h1 : feedGo ((xs ++ ys).length + 1) p xs = some (xs.length, none, p1) := by
    rw [feedGo_mono ((xs ++ ys).length + 1) (xs.length + 1) p xs
      (by simp [List.length_append]; omega) (by omega)]
    exact h
  rw [feedGo_append ((xs ++ ys).length + 1) p xs ys p1 (by omega) h1]
  rw [feedGo_mono ((xs ++ ys).length + 1) (ys.length + 1) p1 ys
    (by simp [List.length_append]; omega) (by omega)]

/-! ## The escaping loop versus the escaping rule as the spec words it -/

/-- The spec's wording of the escaping rule (for the refinement claim):
each occurrence of one of the four reserved bytes 35, 36, 125, 42 is
replaced by the lead-in byte 125 followed by that byte xor 32, and every
other byte is copied verbatim. -/
def escapeSpec (data : List Nat) : List Nat :=
  data.flatMap fun b =>
    if b = 35 ∨ b = 36 ∨ b = 125 ∨ b = 42 then [125, b ^^^ 32] else [b]

theorem encodePayload_nil : encodePayload [] = [] := by
  rw [encodePayload]
  simp [memchrP]

theorem encodePayload_cons_esc {b : Nat}
    (hb : b = 35 ∨ b = 36 ∨ b = 125 ∨ b = 42) (l : List Nat) :
    encodePayload (b :: l) = 125 :: (b ^^^ 32) :: encodePayload l := by
  rw [encodePayload]
  rcases hb with rfl | rfl | rfl | rfl
  · have he1 : (memchrP (fun x => x == 35 || x == 36 || x == 125) (35 :: l)).getD
        (35 :: l).length = 0 := by simp [memchrP_cons]
    rw [he1, Nat.zero_min, dif_pos (by simp : 0 < (35 :: l).length)]
    simp
  · have he1 : (memchrP (fun x => x == 35 || x == 36 || x == 125) (36 :: l)).getD
        (36 :: l).length = 0 := by simp [memchrP_cons]
    rw [he1, Nat.zero_min, dif_pos (by simp : 0 < (36 :: l).length)]
    simp
  · have he1 : (memchrP (fun x => x == 35 || x == 36 || x == 125) (125 :: l)).getD
        (125 :: l).length = 0 := by simp [memchrP_cons]
    rw [he1, Nat.zero_min, dif_pos (by simp : 0 < (125 :: l).length)]
    simp
  · have he2 : (memchrP (fun x => x == 42) (42 :: l)).getD (42 :: l).length = 0 := by
      simp [memchrP_cons]
    rw [he2, Nat.min_zero, dif_pos (by simp : 0 < (42 :: l).length)]
    simp

theorem encodePayload_cons_noesc {b : Nat}
    (hb : ¬(b = 35 ∨ b = 36 ∨ b = 125 ∨ b = 42)) (l : List Nat) :
    encodePayload (b :: l) = b :: encodePayload l := by
  push_neg at hb
  obtain ⟨h35, h36, h125, h42⟩ := hb
  have hq1 : ((b == 35 || b == 36 || b == 125) : Bool) = false := by
    simp [h35, h36, h125]
  have hq2 : ((b == 42) : Bool) = false := by simp [h42]
  have hm1 : memchrP (fun x => x == 35 || x == 36 || x == 125) (b :: l) =
      (memchrP (fun x => x == 35 || x == 36 || x == 125) l).map (· + 1) := by
    rw [memchrP_cons]
    simp only [hq1, Bool.false_eq_true, if_false]
  have hm2 : memchrP (fun x => x == 42) (b :: l) =
      (memchrP (fun x => x == 42) l).map (· + 1) := by
    rw [memchrP_cons]
    simp only [hq2, Bool.false_eq_true, if_false]
  have hshift : ∀ (X : Option Nat) (n : Nat),
      (X.map (· + 1)).getD (n + 1) = X.getD n + 1 := by
    intro X n
    cases X <;> simp
  rw [encodePayload, hm1, hm2]
  rw [show (b :: l).length = l.length + 1 from rfl]
  rw [hshift, hshift, Nat.succ_min_succ]
  conv_rhs => rw [encodePayload]
  simp only [Nat.succ_eq_add_one]
  split
  next hlt1 =>
    split
    next hlt2 =>
      rw [List.take_succ_cons, List.getD_cons_succ, List.drop_succ_cons]
      simp [List.cons_append]
    next hlt2 => exact absurd (by omega) hlt2
  next hlt1 =>
    split
    next hlt2 => exact absurd (by omega) hlt1
    next hlt2 => rw [List.take_succ_cons]
/-- The escaping loop of `encode` implements exactly the per-byte escaping
rule stated by the spec. -/
theorem encodePayload_eq_escapeSpec (l : List Nat) :
    encodePayload l = escapeSpec l := by
  induction l with
  | nil => rw [encodePayload_nil]; simp [escapeSpec]
  | cons b l ih =>
    by_cases hb : b = 35 ∨ b = 36 ∨ b = 125 ∨ b = 42
    · rw [encodePayload_cons_esc hb, ih]
      simp [escapeSpec, hb]
    · rw [encodePayload_cons_noesc hb, ih]
      simp [escapeSpec, hb]

/-! ## Decode of an encoded packet (round trip) -/

/-- Feeding one verbatim (non-reserved) byte in the `Data` state consumes
it into the payload. -/
theorem feed_data_verbatim (k : Kind) (acc : List Nat) (cs : Nat × Nat) {b : Nat}
    (hb : ¬(b = 35 ∨ b = 125 ∨ b = 42)) :
    Parser.feed { state := State.Data, kind := k, data := acc, checksum := cs } [b] =
      some (1, none, { state := State.Data, kind := k, data := acc ++ [b], checksum := cs }) := by
  push_neg at hb
  obtain ⟨h35, h125, h42⟩ := hb
  have hm : memchrP (fun x => x == 35 || x == 125 || x == 42) [b] = none := by
    rw [memchrP_cons]
    simp [h35, h125, h42, memchrP]
  rw [Parser.feed, feedGo_succ, feed_one_cons]
  simp only []
  rw [feedOneData, hm]
  simp

/-- Feeding an escape pair (lead-in 125 then the reserved byte xor 32) in
the `Data` state appends the original reserved byte to the payload. -/
theorem feed_data_escaped (k : Kind) (acc : List Nat) (cs : Nat × Nat) {b : Nat}
    (hb : b = 35 ∨ b = 36 ∨ b = 125 ∨ b = 42) :
    Parser.feed { state := State.Data, kind := k, data := acc, checksum := cs } [125, b ^^^ 32] =
      some (2, none, { state := State.Data, kind := k, data := acc ++ [b], checksum := cs }) := by
  rcases hb with rfl | rfl | rfl | rfl <;>
    simp [Parser.feed, feedGo, Parser.feed_one, feedOneData, feedOneEscape, memchrP]

/-- Feeding the terminator byte 35 followed by the two checksum bytes in
the `Data` state emits the accumulated packet and resets the parser. -/
theorem feed_data_close (k : Kind) (acc : List Nat) (cs : Nat × Nat) (c0 c1 : Nat) :
    Parser.feed { state := State.Data, kind := k, data := acc, checksum := cs } [35, c0, c1] =
      some (3, some { kind := k, data := acc, checksum := (c0, c1) },
            { state := State.Ty, kind := k, data := [], checksum := (c0, c1) }) := by
  simp [Parser.feed, feedGo, Parser.feed_one, feedOneData, feedOneChecksum, memchrP]

/-- Feeding an escaped payload followed by the terminator and the checksum
bytes from the `Data` state accumulates exactly the original payload. -/
theorem feed_data_encoded (d : List Nat) :
    ∀ (k : Kind) (acc : List Nat) (cs : Nat × Nat) (c0 c1 : Nat),
    Parser.feed { state := State.Data, kind := k, data := acc, checksum := cs }
        (escapeSpec d ++ [35, c0, c1]) =
      some ((escapeSpec d).length + 3, some { kind := k, data := acc ++ d, checksum := (c0, c1) },
            { state := State.Ty, kind := k, data := [], checksum := (c0, c1) }) := by
  induction d with
  | nil =>
    intro k acc cs c0 c1
    simpa [escapeSpec] using feed_data_close k acc cs c0 c1
  | cons b d ih =>
    intro k acc cs c0 c1
    by_cases hb : b = 35 ∨ b = 36 ∨ b = 125 ∨ b = 42
    · have hes : escapeSpec (b :: d) = [125, b ^^^ 32] ++ escapeSpec d := by
        simp [escapeSpec, hb]
      rw [hes, List.append_assoc]
      have hchunk : Parser.feed { state := State.Data, kind := k, data := acc, checksum := cs }
          [125, b ^^^ 32] =
          some (([125, b ^^^ 32] : List Nat).length, none,
            { state := State.Data, kind := k, data := acc ++ [b], checksum := cs }) := by
        simpa using feed_data_escaped k acc cs hb
      rw [feed_append _ hchunk, ih k (acc ++ [b]) cs c0 c1]
      simp only [Option.map_some', Option.some.injEq, Prod.mk.injEq]
      refine ⟨?_, ?_, trivial⟩
      · simp only [List.length_append, List.length_cons, List.length_nil]
        omega
      · simp [List.append_assoc]
    · have hb3 : ¬(b = 35 ∨ b = 125 ∨ b = 42) := by tauto
      have hes : escapeSpec (b :: d) = [b] ++ escapeSpec d := by
        simp [escapeSpec, hb]
      rw [hes, List.append_assoc]
      have hchunk : Parser.feed { state := State.Data, kind := k, data := acc, checksum := cs }
          [b] =
          some (([b] : List Nat).length, none,
            { state := State.Data, kind := k, data := acc ++ [b], checksum := cs }) := by
        simpa using feed_data_verbatim k acc cs hb3
      rw [feed_append _ hchunk, ih k (acc ++ [b]) cs c0 c1]
      simp only [Option.map_some', Option.some.injEq, Prod.mk.injEq]
      refine ⟨?_, ?_, trivial⟩
      · simp only [List.length_append, List.length_cons, List.length_nil]
        omega
      · simp [List.append_assoc]

/-- Decoding an encoded `from_data` packet with a fresh parser consumes the
whole encoding and reproduces the packet exactly. -/
theorem feed_encode_roundtrip (kind : Kind) (d : List Nat) :
    Parser.feed Parser.init (UncheckedPacket.encode (CheckedPacket.from_data kind d).unchecked) =
      some ((UncheckedPacket.encode (CheckedPacket.from_data kind d).unchecked).length,
            some (CheckedPacket.from_data kind d).unchecked,
            { state := State.Ty, kind := kind, data := [],
              checksum := (CheckedPacket.from_data kind d).unchecked.checksum }) := by
  cases kind with
  | Notification =>
    have h1 : Parser.feed Parser.init [37] =
        some (([37] : List Nat).length, none,
          { state := State.Data, kind := Kind.Notification, data := [], checksum := (0, 0) }) := by
      decide
    have henc : UncheckedPacket.encode (CheckedPacket.from_data Kind.Notification d).unchecked =
        [37] ++ (escapeSpec d ++
          [35, (CheckedPacket.from_data Kind.Notification d).unchecked.checksum.1,
           (CheckedPacket.from_data Kind.Notification d).unchecked.checksum.2]) := by
      rw [UncheckedPacket.encode]
      simp [CheckedPacket.from_data, CheckedPacket.assume_checked,
        encodePayload_eq_escapeSpec, List.append_assoc]
    rw [henc, feed_append _ h1, feed_data_encoded d Kind.Notification []]
    simp only [Option.map_some', Option.some.injEq, Prod.mk.injEq]
    refine ⟨?_, ?_, trivial⟩
    · simp only [List.length_append, List.length_cons, List.length_nil]
      try omega
    · simp [CheckedPacket.from_data, CheckedPacket.assume_checked]
  | Packet =>
    have h1 : Parser.feed Parser.init [36] =
        some (([36] : List Nat).length, none,
          { state := State.Data, kind := Kind.Packet, data := [], checksum := (0, 0) }) := by
      decide
    have henc : UncheckedPacket.encode (CheckedPacket.from_data Kind.Packet d).unchecked =
        [36] ++ (escapeSpec d ++
          [35, (CheckedPacket.from_data Kind.Packet d).unchecked.checksum.1,
           (CheckedPacket.from_data Kind.Packet d).unchecked.checksum.2]) := by
      rw [UncheckedPacket.encode]
      simp [CheckedPacket.from_data, CheckedPacket.assume_checked,
        encodePayload_eq_escapeSpec, List.append_assoc]
    rw [henc, feed_append _ h1, feed_data_encoded d Kind.Packet []]
    simp only [Option.map_some', Option.some.injEq, Prod.mk.injEq]
    refine ⟨?_, ?_, trivial⟩
    · simp only [List.length_append, List.length_cons, List.length_nil]
      try omega
    · simp [CheckedPacket.from_data, CheckedPacket.assume_checked]

/-! ## Session loop lemmas -/

theorem nextPacketGo_succ (fuel : Nat) (s : GdbServer) :
    nextPacketGo (fuel + 1) s =
      (if s.reader = [] then some (s, none)
       else
        match s.parser.feed s.reader with
        | none => none
        | some (read, pkt, parser1) =>
          let s1 : GdbServer := { s with reader := s.reader.drop read, parser := parser1 }
          match pkt with
          | none => nextPacketGo fuel s1
          | some packet =>
            match packet.kind with
            | Kind.Packet =>
              match packet.check with
              | some checked => some ({ s1 with writer := s1.writer ++ [43] }, some checked)
              | none => nextPacketGo fuel { s1 with writer := s1.writer ++ [45] }
            | Kind.Notification => some (s1, packet.check)) := rfl

/-! ## The checksum as a modular sum -/

theorem foldl_add_mod (l : List Nat) :
    ∀ a : Nat, l.foldl (fun hash b => (hash + b) % 256) (a % 256) = (a + l.sum) % 256 := by
  induction l with
  | nil => intro a; simp
  | cons b t ih =>
    intro a
    rw [List.foldl_cons, Nat.mod_add_mod, ih (a + b)]
    rw [List.sum_cons]
    congr 1
    omega

/-! ## The claims -/

/-- Claim C1 (code bug): the spec requires that `feed` never aborts and in
particular that a repeat marker arriving with an empty payload accumulator
is a defined transition or an explicit error; the source instead panics
through `expect("State::Repeat must only be used once data has been
inserted")`.  Feeding the three bytes `$ * 0` makes the parser reach the
`Repeat` state with an empty payload and abort (`none` models the panic). -/
theorem claim1_repeat_empty_payload_panics :
    Parser.feed Parser.init [36, 42, 48] = none := by decide

set_option maxRecDepth 8192 in
/-- Claim C2 (code bug): the first half of the claim holds (the count byte
`c` appends `c - 29` saturated copies), but the code does not reject or
clamp counts above the protocol maximum of 97: the count byte 255 makes it
silently append 226 copies and accept the packet. -/
theorem claim2_repeat_count_not_capped :
    Parser.feed Parser.init [36, 97, 42, 255, 35, 48, 48] =
      some (7,
        some { kind := Kind.Packet, data := 97 :: List.replicate 226 97, checksum := (48, 48) },
        { state := State.Ty, kind := Kind.Packet, data := [], checksum := (48, 48) }) ∧
    97 < 226 := by
  constructor
  · decide
  · decide

/-- Claim C3 (code bug): split feeding is not equivalent to whole feeding.
Feeding the well-formed packet `$hello#14` whole succeeds, but feeding its
first piece `$hello#1` (split inside the checksum) panics: with one byte
available for a two-byte checksum buffer, `copy_from_slice` is called with
mismatched slice lengths.  `none` models the panic. -/
theorem claim3_split_feed_panics :
    Parser.feed Parser.init [36, 104, 101, 108, 108, 111, 35, 49] = none ∧
    Parser.feed Parser.init [36, 104, 101, 108, 108, 111, 35, 49, 52] =
      some (9,
        some { kind := Kind.Packet, data := [104, 101, 108, 108, 111], checksum := (49, 52) },
        { state := State.Ty, kind := Kind.Packet, data := [], checksum := (49, 52) }) := by
  constructor
  · decide
  · decide

/-- Claim C4: `next_packet` returns cleanly on an exhausted source; on a
checksum-valid `Packet`-kind packet it writes exactly one ack byte 43 and
returns the verified packet; on a checksum-invalid one it writes exactly
one nak byte 45 and resumes the read loop instead of returning. -/
theorem claim4_next_packet_protocol :
    (∀ s : GdbServer, s.reader = [] → s.next_packet = some (s, none)) ∧
    (∀ (s : GdbServer) (read : Nat) (up : UncheckedPacket) (p1 : Parser) (ck : CheckedPacket),
      s.reader ≠ [] →
      s.parser.feed s.reader = some (read, some up, p1) →
      up.kind = Kind.Packet →
      up.check = some ck →
      s.next_packet =
        some ({ reader := s.reader.drop read, writer := s.writer ++ [43], parser := p1 },
              some ck)) ∧
    (∀ (fuel : Nat) (s : GdbServer) (read : Nat) (up : UncheckedPacket) (p1 : Parser),
      s.reader ≠ [] →
      s.parser.feed s.reader = some (read, some up, p1) →
      up.kind = Kind.Packet →
      up.check = none →
      nextPacketGo (fuel + 1) s =
        nextPacketGo fuel
          { reader := s.reader.drop read, writer := s.writer ++ [45], parser := p1 }) := by
  refine ⟨?_, ?_, ?_⟩
  · intro s h
    rw [GdbServer.next_packet]
    rw [show s.reader.length + 2 = (s.reader.length + 1) + 1 from rfl]
    rw [nextPacketGo_succ, if_pos h]
  · intro s read up p1 ck hne hfeed hkind hcheck
    rw [GdbServer.next_packet]
    rw [show s.reader.length + 2 = (s.reader.length + 1) + 1 from rfl]
    rw [nextPacketGo_succ, if_neg hne, hfeed]
    simp only []
    rw [hkind]
    simp only []
    rw [hcheck]
  · intro fuel s read up p1 hne hfeed hkind hcheck
    rw [nextPacketGo_succ, if_neg hne, hfeed]
    simp only []
    rw [hkind]
    simp only []
    rw [hcheck]

/-- Witness for claim C4 at the crate's own test input `$packet#78`: the
parts of the claim are applied at concrete inputs (an empty source; the
valid packet, acknowledged with a single 43). -/
theorem claim4_witness :
    GdbServer.next_packet { reader := [], writer := [], parser := Parser.init } =
      some ({ reader := [], writer := [], parser := Parser.init }, none) ∧
    GdbServer.next_packet
        { reader := [36, 112, 97, 99, 107, 101, 116, 35, 55, 56], writer := [],
          parser := Parser.init } =
      some ({ reader := [], writer := [43],
              parser := { state := State.Ty, kind := Kind.Packet, data := [],
                          checksum := (55, 56) } },
            some (CheckedPacket.assume_checked
              { kind := Kind.Packet, data := [112, 97, 99, 107, 101, 116],
                checksum := (55, 56) })) :=
  ⟨claim4_next_packet_protocol.1 _ rfl,
   claim4_next_packet_protocol.2.1
     { reader := [36, 112, 97, 99, 107, 101, 116, 35, 55, 56], writer := [],
       parser := Parser.init }
     10
     { kind := Kind.Packet, data := [112, 97, 99, 107, 101, 116], checksum := (55, 56) }
     { state := State.Ty, kind := Kind.Packet, data := [], checksum := (55, 56) }
     (CheckedPacket.assume_checked
       { kind := Kind.Packet, data := [112, 97, 99, 107, 101, 116], checksum := (55, 56) })
     (by decide) (by decide) (by decide) (by decide)⟩

/-- Claim C5: `check` succeeds — returning the same packet wrapped as
checked — exactly when the expected checksum parses and equals the actual
checksum of the data, and it never returns anything else. -/
theorem claim5_check_iff (p : UncheckedPacket) :
    (p.check = some (CheckedPacket.assume_checked p) ↔
      p.expected_checksum = Except.ok p.actual_checksum) ∧
    (p.check = none ∨ p.check = some (CheckedPacket.assume_checked p)) := by
  constructor
  · rw [UncheckedPacket.check]
    constructor
    · intro h
      by_cases hc : p.expected_checksum.toOption = some p.actual_checksum
      · cases he : p.expected_checksum with
        | ok v =>
          rw [he] at hc
          simp [Except.toOption] at hc
          rw [hc]
        | error e =>
          rw [he] at hc
          simp [Except.toOption] at hc
      · rw [if_neg hc] at h
        exact absurd h (by simp)
    · intro h
      rw [if_pos (by rw [h]; rfl)]
  · rw [UncheckedPacket.check]
    by_cases hc : p.expected_checksum.toOption = some p.actual_checksum
    · right; rw [if_pos hc]
    · left; rw [if_neg hc]

/-- Claim C6: `encode` writes, in order, the kind marker (37 for a
notification, 36 for a packet), the payload with each reserved byte 35,
36, 125, 42 replaced by 125 followed by the byte xor 32 and all other
bytes verbatim, the terminator byte 35, and the two raw checksum bytes. -/
theorem claim6_encode_format (p : UncheckedPacket) :
    p.encode =
      (match p.kind with
       | Kind.Notification => [37]
       | Kind.Packet => [36])
      ++ escapeSpec p.data ++ [35] ++ [p.checksum.1, p.checksum.2] := by
  rw [UncheckedPacket.encode, encodePayload_eq_escapeSpec]

/-- Claim C7: for every kind and payload, encoding `from_data` and feeding
the encoding to a fresh parser consumes it entirely and yields exactly one
packet whose data is the original payload. -/
theorem claim7_encode_decode_roundtrip (kind : Kind) (d : List Nat) :
    ∃ q : Parser,
      Parser.feed Parser.init ((CheckedPacket.from_data kind d).unchecked.encode) =
        some (((CheckedPacket.from_data kind d).unchecked.encode).length,
              some (CheckedPacket.from_data kind d).unchecked, q) ∧
      (CheckedPacket.from_data kind d).unchecked.data = d := by
  refine ⟨_, feed_encode_roundtrip kind d, ?_⟩
  simp [CheckedPacket.from_data, CheckedPacket.assume_checked]

/-- Claim C8: a `Notification`-kind packet is never acknowledged — the sink
is left unchanged — and the result of `check` is returned as-is. -/
theorem claim8_notification_no_ack (s : GdbServer) (read : Nat)
    (up : UncheckedPacket) (p1 : Parser)
    (hne : s.reader ≠ [])
    (hfeed : s.parser.feed s.reader = some (read, some up, p1))
    (hkind : up.kind = Kind.Notification) :
    s.next_packet =
      some ({ reader := s.reader.drop read, writer := s.writer, parser := p1 }, up.check) := by
  rw [GdbServer.next_packet]
  rw [show s.reader.length + 2 = (s.reader.length + 1) + 1 from rfl]
  rw [nextPacketGo_succ, if_neg hne, hfeed]
  simp only []
  rw [hkind]

/-- Witness for claim C8 at the notification `%packet#78` (checksum valid)
and at `%packet#99` (checksum invalid): in both cases the sink stays
empty and the bare `check` result is returned. -/
theorem claim8_witness :
    GdbServer.next_packet
        { reader := [37, 112, 97, 99, 107, 101, 116, 35, 55, 56], writer := [],
          parser := Parser.init } =
      some ({ reader := [], writer := [],
              parser := { state := State.Ty, kind := Kind.Notification, data := [],
                          checksum := (55, 56) } },
            UncheckedPacket.check
              { kind := Kind.Notification, data := [112, 97, 99, 107, 101, 116],
                checksum := (55, 56) }) ∧
    GdbServer.next_packet
        { reader := [37, 112, 97, 99, 107, 101, 116, 35, 57, 57], writer := [],
          parser := Parser.init } =
      some ({ reader := [], writer := [],
              parser := { state := State.Ty, kind := Kind.Notification, data := [],
                          checksum := (57, 57) } },
            UncheckedPacket.check
              { kind := Kind.Notification, data := [112, 97, 99, 107, 101, 116],
                checksum := (57, 57) }) :=
  ⟨claim8_notification_no_ack
     { reader := [37, 112, 97, 99, 107, 101, 116, 35, 55, 56], writer := [],
       parser := Parser.init }
     10
     { kind := Kind.Notification, data := [112, 97, 99, 107, 101, 116], checksum := (55, 56) }
     { state := State.Ty, kind := Kind.Notification, data := [], checksum := (55, 56) }
     (by decide) (by decide) (by decide),
   claim8_notification_no_ack
     { reader := [37, 112, 97, 99, 107, 101, 116, 35, 57, 57], writer := [],
       parser := Parser.init }
     10
     { kind := Kind.Notification, data := [112, 97, 99, 107, 101, 116], checksum := (57, 57) }
     { state := State.Ty, kind := Kind.Notification, data := [], checksum := (57, 57) }
     (by decide) (by decide) (by decide)⟩

/-- Claim C9: `actual_checksum` is the sum of all data bytes modulo 256,
for every byte sequence, with no failure mode (the function is total). -/
theorem claim9_actual_checksum_is_sum_mod (kind : Kind) (data : List Nat)
    (checksum : Nat × Nat) :
    UncheckedPacket.actual_checksum { kind := kind, data := data, checksum := checksum } =
      data.sum % 256 := by
  rw [UncheckedPacket.actual_checksum]
  have := foldl_add_mod data 0
  simpa using this

/-- Claim C10: whenever `feed` returns normally, the consumed count never
exceeds the input length, and when no packet is emitted the whole input
was consumed — the caller never has to re-supply a remainder unless a
packet was returned. -/
theorem claim10_feed_consumes_all (p : Parser) (input : List Nat) (n : Nat)
    (pk : Option UncheckedPacket) (p1 : Parser)
    (h : p.feed input = some (n, pk, p1)) :
    n ≤ input.length ∧ (pk = none → n = input.length) := by
  rw [Parser.feed] at h
  exact feedGo_spec (input.length + 1) p input (by omega) h

/-- Witness for claim C10 on the partial packet `$hi`: three bytes are
consumed, no packet is produced, and the count equals the input length. -/
theorem claim10_witness :
    (3 : Nat) ≤ ([36, 104, 105] : List Nat).length ∧
      ((none : Option UncheckedPacket) = none → (3 : Nat) = ([36, 104, 105] : List Nat).length) :=
  claim10_feed_consumes_all Parser.init [36, 104, 105] 3 none
    { state := State.Data, kind := Kind.Packet, data := [104, 105], checksum := (0, 0) }
    (by decide)

end GdbSerial
